import Mathlib

/-!
# Verification of the Pangloss reconstruction pipeline

A shallow embedding, in Lean 4, of the parts of the Pangloss repository
(`Reconstruct.py`, `pangloss/foreground.py`) that the specification talks
about, together with theorems settling the specification's claims.

Modelling conventions:
* Python strings are modelled as `List Char` (`PyStr`); Python string
  formatting with `%i` is modelled by `pyIntRepr` (decimal rendering).
* Python floats are modelled as exact rationals (`ℚ`); real-valued catalog
  entries are modelled over an arbitrary linearly ordered field, with the
  irrational conversion factors `deg2rad`/`rad2deg` kept as abstract
  function parameters.
* Fallible code returns `Except`.
* Functions called by `Reconstruct.py` but absent from the repository
  (the per-cone reconstructor, `MakeReconstructionCalibration`,
  `CalibrateResult`'s internals, the config reader) are modelled from the
  spec; each such definition carries a doc comment starting
  "Modelled from the spec:".
-/

namespace Pangloss

/-- Python strings, modelled as lists of characters. -/
abbrev PyStr := List Char

/-- `s.startswith(pre)` for `PyStr`. -/
def pyStartsWith : PyStr → PyStr → Bool
  | _, [] => true
  | [], _ :: _ => false
  | c :: s, d :: p => c = d && pyStartsWith s p

/-- Number of occurrences of `x` in `l` (used to state "written exactly once"). -/
def countOccs (x : PyStr) (l : List PyStr) : Nat :=
  (l.filter (fun y => y = x)).length

theorem countOccs_nil (x : PyStr) : countOccs x [] = 0 := rfl

theorem countOccs_append (x : PyStr) (l1 l2 : List PyStr) :
    countOccs x (l1 ++ l2) = countOccs x l1 + countOccs x l2 := by
  simp [countOccs, List.filter_append]

theorem countOccs_cons (x : PyStr) (y : PyStr) (l : List PyStr) :
    countOccs x (y :: l) = (if y = x then 1 else 0) + countOccs x l := by
  by_cases h : y = x
  · simp [countOccs, h]; omega
  · simp [countOccs, h]

theorem countOccs_eq_zero (x : PyStr) (l : List PyStr) (h : ∀ y ∈ l, y ≠ x) :
    countOccs x l = 0 := by
  simp only [countOccs, List.length_eq_zero]
  rw [List.filter_eq_nil_iff]
  intro y hy
  simpa using h y hy

/-! ## Decimal rendering of a natural number (Python `"%i" % n`) -/

/-- Little-endian decimal digits of `n`; `fuel ≥ n` makes the result
independent of `fuel`. -/
def digitsRevFuel : Nat → Nat → List Nat
  | 0, n => [n % 10]
  | fuel + 1, n => if n < 10 then [n] else n % 10 :: digitsRevFuel fuel (n / 10)

/-- Little-endian decimal digits of `n`. -/
def decimalDigitsRev (n : Nat) : List Nat := digitsRevFuel n n

theorem digitsRevFuel_fuel_irrel :
    ∀ n f1 f2, n ≤ f1 → n ≤ f2 → digitsRevFuel f1 n = digitsRevFuel f2 n := by
  intro n
  induction n using Nat.strong_induction_on with
  | _ n ih =>
    intro f1 f2 h1 h2
    match f1, f2 with
    | 0, 0 => rfl
    | 0, f2 + 1 =>
      interval_cases n
      simp [digitsRevFuel]
    | f1 + 1, 0 =>
      interval_cases n
      simp [digitsRevFuel]
    | f1 + 1, f2 + 1 =>
      by_cases hn : n < 10
      · simp [digitsRevFuel, hn]
      · have hd : n / 10 < n := Nat.div_lt_self (by omega) (by omega)
        have hle1 : n / 10 ≤ f1 := by omega
        have hle2 : n / 10 ≤ f2 := by omega
        simp only [digitsRevFuel, if_neg hn]
        exact congrArg _ (ih (n / 10) hd f1 f2 hle1 hle2)

theorem decimalDigitsRev_lt (n : Nat) (h : n < 10) : decimalDigitsRev n = [n] := by
  cases n with
  | zero => rfl
  | succ m => simp [decimalDigitsRev, digitsRevFuel, h]

theorem decimalDigitsRev_ge (n : Nat) (h : 10 ≤ n) :
    decimalDigitsRev n = n % 10 :: decimalDigitsRev (n / 10) := by
  obtain ⟨m, rfl⟩ : ∃ m, n = m + 1 := ⟨n - 1, by omega⟩
  show digitsRevFuel (m + 1) (m + 1) = _
  simp only [digitsRevFuel, if_neg (by omega : ¬ m + 1 < 10)]
  refine congrArg _ (digitsRevFuel_fuel_irrel _ _ _ ?_ le_rfl)
  have := Nat.div_lt_self (show 0 < m + 1 by omega) (show 1 < 10 by omega)
  omega

theorem decimalDigitsRev_ne_nil (n : Nat) : decimalDigitsRev n ≠ [] := by
  by_cases h : n < 10
  · rw [decimalDigitsRev_lt n h]; simp
  · rw [decimalDigitsRev_ge n (by omega)]; simp

theorem decimalDigitsRev_injective : Function.Injective decimalDigitsRev := by
  intro a
  induction a using Nat.strong_induction_on with
  | _ a ih =>
    intro b h
    by_cases ha : a < 10 <;> by_cases hb : b < 10
    · rw [decimalDigitsRev_lt a ha, decimalDigitsRev_lt b hb] at h
      simpa using h
    · rw [decimalDigitsRev_lt a ha, decimalDigitsRev_ge b (by omega)] at h
      exact absurd (List.cons.inj h).2.symm (decimalDigitsRev_ne_nil _)
    · rw [decimalDigitsRev_ge a (by omega), decimalDigitsRev_lt b hb] at h
      exact absurd (List.cons.inj h).2 (decimalDigitsRev_ne_nil _)
    · rw [decimalDigitsRev_ge a (by omega), decimalDigitsRev_ge b (by omega)] at h
      obtain ⟨h1, h2⟩ := List.cons.inj h
      have hda : a / 10 < a := Nat.div_lt_self (by omega) (by omega)
      have := ih (a / 10) hda h2
      omega

theorem decimalDigitsRev_mem_lt (n : Nat) : ∀ d ∈ decimalDigitsRev n, d < 10 := by
  induction n using Nat.strong_induction_on with
  | _ n ih =>
    intro d hd
    by_cases h : n < 10
    · rw [decimalDigitsRev_lt n h] at hd
      simp only [List.mem_singleton] at hd
      omega
    · rw [decimalDigitsRev_ge n (by omega)] at hd
      simp only [List.mem_cons] at hd
      rcases hd with hd | hd'
      · omega
      · exact ih (n / 10) (Nat.div_lt_self (by omega) (by omega)) d hd'

/-- The ASCII digit character for a decimal digit. -/
def digitChar48 (d : Nat) : Char := Char.ofNat (48 + d)

theorem digitChar48_inj_lt :
    ∀ a < 10, ∀ b < 10, digitChar48 a = digitChar48 b → a = b := by decide

/-- Python decimal rendering `"%i" % n` of a natural number. -/
def pyIntRepr (n : Nat) : PyStr := (decimalDigitsRev n).reverse.map digitChar48

theorem map_digitChar48_inj :
    ∀ xs ys : List Nat, (∀ d ∈ xs, d < 10) → (∀ d ∈ ys, d < 10) →
      xs.map digitChar48 = ys.map digitChar48 → xs = ys := by
  intro xs
  induction xs with
  | nil => intro ys _ _ h; cases ys <;> simp_all
  | cons x xs ihx =>
    intro ys hx hy h
    cases ys with
    | nil => simp_all
    | cons y ys =>
      simp only [List.map_cons, List.cons.injEq] at h
      have hxy : x = y :=
        digitChar48_inj_lt x (hx x (by simp)) y (hy y (by simp)) h.1
      have := ihx ys (fun d hd => hx d (by simp [hd])) (fun d hd => hy d (by simp [hd])) h.2
      simp [hxy, this]

theorem pyIntRepr_injective : Function.Injective pyIntRepr := by
  intro a b h
  have hrev := map_digitChar48_inj _ _
    (fun d hd => decimalDigitsRev_mem_lt a d (List.mem_reverse.mp hd))
    (fun d hd => decimalDigitsRev_mem_lt b d (List.mem_reverse.mp hd)) h
  exact decimalDigitsRev_injective (List.reverse_injective hrev)

/-! ## `pangloss/foreground.py`: the foreground galaxy catalog

Embedding of `ForegroundCatalog.findGalaxies` and
`ForegroundCatalog.returnGalaxies` (foreground.py lines 89-143).  Catalog
columns are values in an arbitrary linearly ordered field `α` (modelling
floats by exact arithmetic); the conversions `np.deg2rad`/`np.rad2deg`
(multiplication by the irrational π/180 and its inverse) are abstract
function parameters `deg2rad`, `rad2deg`. -/

/-- One row of the foreground catalog: the columns used by the cutoffs. -/
structure Galaxy (α : Type) where
  nRA : α
  Dec : α
  z_obs : α
  Mstar_obs : α
  mag : α

/-- The catalog: its data rows plus the world-coordinate limits that
`__init__` (foreground.py lines 74-78) precomputes and stores. -/
structure ForegroundCatalog (α : Type) where
  data : List (Galaxy α)
  ra_max : α
  ra_min : α
  dec_max : α
  dec_min : α

/-- The row-selection mask shared by the three selections in `findGalaxies`
(foreground.py lines 103-119) and by `returnGalaxies` (lines 137-141).
Note the third conjunct pair: the source compares `z_obs` against
`mag_cutoff`, not against `z_cutoff`. -/
def galaxyMask [LinearOrderedField α] (g : Galaxy α)
    (mag_cutoff mass_cutoff ra_cutoff dec_cutoff : α × α) : Bool :=
  decide (g.mag > mag_cutoff.1) && decide (g.mag < mag_cutoff.2) &&
  decide (g.Mstar_obs > mass_cutoff.1) && decide (g.Mstar_obs < mass_cutoff.2) &&
  decide (g.z_obs > mag_cutoff.1) && decide (g.z_obs < mag_cutoff.2) &&
  decide (-g.nRA > ra_cutoff.2) && decide (-g.nRA < ra_cutoff.1) &&
  decide (g.Dec > dec_cutoff.1) && decide (g.Dec < dec_cutoff.2)

/-- `ForegroundCatalog.findGalaxies` (foreground.py lines 89-121): returns
the selected galaxies' right ascensions, declinations and stellar masses.
`ra_cutoff`/`dec_cutoff` default (`None` in Python) to the stored limits. -/
def ForegroundCatalog.findGalaxies [LinearOrderedField α]
    (self : ForegroundCatalog α) (deg2rad rad2deg : α → α)
    (mag_cutoff mass_cutoff z_cutoff : α × α)
    (ra_cutoff dec_cutoff : Option (α × α)) :
    List α × List α × List α :=
  let ra_c : α × α :=
    match ra_cutoff with
    | none => (self.ra_max, self.ra_min)
    | some p => p
  let dec_c : α × α :=
    match dec_cutoff with
    | none => (self.dec_min, self.dec_max)
    | some p => p
  let ra_r : α × α := (deg2rad ra_c.1, deg2rad ra_c.2)
  let dec_r : α × α := (deg2rad dec_c.1, deg2rad dec_c.2)
  let sel := self.data.filter (fun g => galaxyMask g mag_cutoff mass_cutoff ra_r dec_r)
  (sel.map (fun g => -(rad2deg g.nRA)),
   sel.map (fun g => rad2deg g.Dec),
   sel.map (fun g => g.Mstar_obs))

/-- `ForegroundCatalog.returnGalaxies` (foreground.py lines 124-143): returns
the selected catalog rows themselves. -/
def ForegroundCatalog.returnGalaxies [LinearOrderedField α]
    (self : ForegroundCatalog α) (deg2rad : α → α)
    (mag_cutoff mass_cutoff z_cutoff : α × α)
    (ra_cutoff dec_cutoff : Option (α × α)) : List (Galaxy α) :=
  let ra_c : α × α :=
    match ra_cutoff with
    | none => (self.ra_max, self.ra_min)
    | some p => p
  let dec_c : α × α :=
    match dec_cutoff with
    | none => (self.dec_min, self.dec_max)
    | some p => p
  let ra_r : α × α := (deg2rad ra_c.1, deg2rad ra_c.2)
  let dec_r : α × α := (deg2rad dec_c.1, deg2rad dec_c.2)
  self.data.filter (fun g => galaxyMask g mag_cutoff mass_cutoff ra_r dec_r)

/-! ## Python `getopt.getopt` (CPython `Lib/getopt.py`), as called by
`Reconstruct.py` line 63: `getopt.getopt(argv, "h", ["help"])`.

The embedding mirrors CPython's `getopt`, `do_longs`, `long_has_args`,
`do_shorts` and `short_has_arg`, restructured so that the consumption of a
following argv element (for an option that takes an argument) happens in
the main loop; this keeps the recursion structural.  Errors (`GetoptError`)
are `Except.error` carrying the message. -/

/-- Split `opt` at its first `'='` (Python `opt.index('=')`; `none` when
there is no `'='`). -/
def splitFirstEq : PyStr → PyStr × Option PyStr
  | [] => ([], none)
  | c :: rest =>
    if c = '=' then ([], some rest)
    else
      let p := splitFirstEq rest
      (c :: p.1, p.2)

/-- `short_has_arg(opt, shortopts)`: whether short option character `opt`
takes an argument; error when `opt` is not in `shortopts`. -/
def short_has_arg (opt : Char) (shortopts : PyStr) : Except PyStr Bool :=
  match shortopts with
  | [] => .error ("option -".toList ++ [opt] ++ " not recognized".toList)
  | c :: rest =>
    if opt = c ∧ c ≠ ':' then .ok (decide (rest.take 1 = [':']))
    else short_has_arg opt rest

/-- `long_has_args(opt, longopts)`: resolves a long option by unique-prefix
matching, returning whether it takes an argument and its full name. -/
def long_has_args (opt : PyStr) (longopts : List PyStr) : Except PyStr (Bool × PyStr) :=
  let possibilities := longopts.filter (fun o => pyStartsWith o opt)
  if possibilities = [] then
    .error ("option --".toList ++ opt ++ " not recognized".toList)
  else if opt ∈ possibilities then .ok (false, opt)
  else if opt ++ ['='] ∈ possibilities then .ok (true, opt)
  else if possibilities.length > 1 then
    .error ("option --".toList ++ opt ++ " not recognized".toList)
  else
    let p := possibilities.headD []
    if p.getLast? = some '=' then .ok (true, p.dropLast) else .ok (false, p)

/-- Outcome of processing one `--xyz` argument (CPython `do_longs`), before
any following argv element is consumed. -/
inductive LongOut
  /-- option resolved, takes no argument; parsed as `("--" ++ name, "")`. -/
  | noArg (nm : PyStr)
  /-- option resolved with `=`-supplied argument. -/
  | withArg (nm : PyStr) (v : PyStr)
  /-- option resolved, takes an argument, none supplied by `=`: the next
  argv element must be consumed. -/
  | needArg (nm : PyStr)

/-- CPython `do_longs`, minus the argv consumption (done by the caller). -/
def do_longs_core (optfull : PyStr) (longopts : List PyStr) : Except PyStr LongOut :=
  let p := splitFirstEq optfull
  match long_has_args p.1 longopts with
  | .error e => .error e
  | .ok (hasArg, nm) =>
    if hasArg then
      match p.2 with
      | none => .ok (.needArg nm)
      | some v => .ok (.withArg nm v)
    else
      match p.2 with
      | none => .ok (.noArg nm)
      | some _ => .error ("option --".toList ++ nm ++ " must not have an argument".toList)

/-- CPython `do_shorts`, minus the argv consumption: processes a cluster
`-abc`, returning the parsed options and, when the final option still needs
an argument from argv, that option's character. -/
def do_shorts_core (ostr : PyStr) (shortopts : PyStr) :
    Except PyStr (List (PyStr × PyStr) × Option Char) :=
  match ostr with
  | [] => .ok ([], none)
  | c :: rest =>
    match short_has_arg c shortopts with
    | .error e => .error e
    | .ok hasArg =>
      if hasArg then
        if rest = [] then .ok ([], some c)
        else .ok ([(['-', c], rest)], none)
      else
        match do_shorts_core rest shortopts with
        | .error e => .error e
        | .ok (os, need) => .ok ((['-', c], ([] : PyStr)) :: os, need)

/-- Directive produced by one iteration of the `getopt` loop: either the
loop terminates with a final answer, or it continues with updated parsed
options and (possibly) an option still waiting for its argument. -/
inductive GetoptDirective
  | halt (r : Except PyStr (List (PyStr × PyStr) × List PyStr))
  | next (newOpts : List (PyStr × PyStr)) (pending : Option (PyStr × PyStr))

/-- The body of one iteration of the CPython `getopt.getopt` `while` loop,
on current argument `a` (with tail `rest`) and no pending option.  An
option that still requires an argument from the following argv element is
reported as `pending (parsed-name, requires-argument message)`; the loop
consumes the next element for it (exactly CPython's
`optarg, args = args[0], args[1:]`). -/
def getoptStep (opts : List (PyStr × PyStr)) (shortopts : PyStr)
    (longopts : List PyStr) (a : PyStr) (rest : List PyStr) : GetoptDirective :=
  if ¬ (pyStartsWith a ['-'] = true) ∨ a = ['-'] then .halt (.ok (opts, a :: rest))
  else if a = ['-', '-'] then .halt (.ok (opts, rest))
  else if a.take 2 = ['-', '-'] then
    match do_longs_core (a.drop 2) longopts with
    | .error e => .halt (.error e)
    | .ok (.noArg nm) => .next (opts ++ [('-' :: '-' :: nm, [])]) none
    | .ok (.withArg nm v) => .next (opts ++ [('-' :: '-' :: nm, v)]) none
    | .ok (.needArg nm) =>
      .next opts (some ('-' :: '-' :: nm,
        "option --".toList ++ nm ++ " requires argument".toList))
  else
    match do_shorts_core (a.drop 1) shortopts with
    | .error e => .halt (.error e)
    | .ok (os, none) => .next (opts ++ os) none
    | .ok (os, some c) =>
      .next (opts ++ os) (some (['-', c],
        "option -".toList ++ [c] ++ " requires argument".toList))

/-- The `while` loop of CPython `getopt.getopt`: left-to-right option
parsing that stops at the first non-option argument.  `pending` carries an
option that takes an argument which must be consumed from the next argv
element (`.error` with its requires-argument message if argv is
exhausted). -/
def getoptLoop (opts : List (PyStr × PyStr)) (shortopts : PyStr)
    (longopts : List PyStr) (pending : Option (PyStr × PyStr)) :
    List PyStr → Except PyStr (List (PyStr × PyStr) × List PyStr)
  | [] =>
    match pending with
    | some pe => .error pe.2
    | none => .ok (opts, [])
  | a :: rest =>
    match pending with
    | some pe => getoptLoop (opts ++ [(pe.1, a)]) shortopts longopts none rest
    | none =>
      match getoptStep opts shortopts longopts a rest with
      | .halt r => r
      | .next opts2 pend2 => getoptLoop opts2 shortopts longopts pend2 rest

/-- `getopt.getopt(args, shortopts, longopts)`. -/
def getopt (args : List PyStr) (shortopts : PyStr) (longopts : List PyStr) :
    Except PyStr (List (PyStr × PyStr) × List PyStr) :=
  getoptLoop [] shortopts longopts none args

/-! ## The CLI entry point `Reconstruct(argv)` (Reconstruct.py lines 62-88) -/

/-- Observable outcome of a call `Reconstruct(argv)`. -/
inductive Outcome
  /-- `getopt.GetoptError` caught: the error and the usage docstring are
  printed and the function returns before any processing. -/
  | errorReport (msg : PyStr)
  /-- `-h`/`--help`: the usage docstring is printed and the function
  returns before any processing. -/
  | help
  /-- an option other than `-h`/`--help` was parsed: `assert False,
  "unhandled option"` raises `AssertionError`. -/
  | assertionFailure
  /-- `len(args) != 1`: the usage docstring is printed, return. -/
  | usage
  /-- exactly one positional argument: processing proceeds with it as the
  configuration file. -/
  | proceed (configfile : PyStr)
  deriving DecidableEq

/-- The `for o,a in opts` loop (Reconstruct.py lines 69-74): the body
always leaves the function (return or assertion), so only the first parsed
option matters. -/
def optionLoop : List (PyStr × PyStr) → Option Outcome
  | [] => none
  | (o, _) :: _ =>
    if o = "-h".toList ∨ o = "--help".toList then some .help else some .assertionFailure

/-- `Reconstruct(argv)` (Reconstruct.py lines 62-88). -/
def Reconstruct (argv : List PyStr) : Outcome :=
  match getopt argv "h".toList ["help".toList] with
  | .error e => .errorReport e
  | .ok (opts, args) =>
    match optionLoop opts with
    | some r => r
    | none =>
      match args with
      | [configfile] => .proceed configfile
      | _ => .usage

/-- Process exit status for each outcome: every path of the function body
returns normally (the script then exits with status 0) except the
`AssertionError` path. -/
def exitStatus : Outcome → Nat
  | .assertionFailure => 1
  | _ => 0

/-- Whether the usage docstring was printed on the way to the outcome. -/
def usagePrinted : Outcome → Bool
  | .errorReport _ => true
  | .help => true
  | .usage => true
  | .assertionFailure => false
  | .proceed _ => false

/-! ## The batch pipeline (Reconstruct.py lines 104-238)

The module-level pipeline script.  Values of numpy arrays are exact
rationals; a `ConeResult` is, as the pipeline uses it, an indexable
collection of columns (`ConeResult[3]` is the weight column), modelled as
`List (List ℚ)`. -/

/-- The survey's weight-parameter choice; the spec's configuration input
declares `WeightParameter1 ∈ {kappa, mu}`. -/
inductive WeightParam
  | kappa
  | mu
  deriving DecidableEq

/-- Modelled from the spec: the survey parameter file reader
("open the survey parameterfile and read in", Reconstruct.py lines
115-118) is missing from the repository, so the configuration values the
pipeline body consumes are modelled as a record following the spec's
"Configuration input" list (only the fields the pipeline body uses are
kept). -/
structure SurveyConfig where
  surveyname : PyStr
  WeightParameter1 : WeightParam
  calibrationWidth : ℚ

/-- `numpy.median` of a 1-D array: the middle element of the sorted data,
or the mean of the two middle elements when the length is even (for the
empty array numpy returns NaN; this model returns `0` there, a case no
claim depends on). -/
def npMedian (xs : List ℚ) : ℚ :=
  let s := List.insertionSort (· ≤ ·) xs
  (s.getD ((xs.length - 1) / 2) 0 + s.getD (xs.length / 2) 0) / 2

/-- The arguments of a call
`CalibrateResult(CalibrationResultsDirectory, surveyname, Value, width, magnification)`
(Reconstruct.py lines 212 and 215).  `CalibrateResult` itself is not in
the repository; the claims are about the arguments the pipeline passes. -/
structure CalibrateCall where
  dir : PyStr
  survey : PyStr
  value : ℚ
  width : ℚ
  magnification : Bool
  deriving DecidableEq

/-- An observable effect of the pipeline body: a `cPickle.dump` to a named
file, or a `CalibrateResult` call. -/
inductive PipelineEvent
  | write (path : PyStr)
  | calibrate (c : CalibrateCall)
  deriving DecidableEq

/-- The file name `"%s/cone%i_%s%s" % (dir, i, surveyname)` with the
extension (`".result"`, `".uncalibratedresult"` or `".calibratedresult"`)
appended as in the source's format literals. -/
def fileName (dir : PyStr) (i : Nat) (surveyname ext : PyStr) : PyStr :=
  dir ++ "/cone".toList ++ pyIntRepr i ++ "_".toList ++ surveyname ++ ext

/-- One iteration of the calibration-lightcone loop (Reconstruct.py lines
166-174): reconstruct the cone, then dump the result to
`cone<i>_<surveyname>.result` in the calibration results directory. -/
def calibConeStep (cfg : SurveyConfig) (CalibrationResultsDirectory : PyStr)
    (i : Nat) (ConeResult : List (List ℚ)) : List PipelineEvent :=
  [.write (fileName CalibrationResultsDirectory i cfg.surveyname ".result".toList)]

/-- One iteration of the real-lightcone loop (Reconstruct.py lines
197-221): dump the uncalibrated result, compute
`Value = numpy.median(ConeResult[3])`, call `CalibrateResult` with
`width=0.01` and `magnification` chosen by the `WeightParameter1`
`if`/`elif`, then dump the calibrated result. -/
def realConeStep (cfg : SurveyConfig)
    (CalibrationResultsDirectory RealResultsDirectory : PyStr)
    (i : Nat) (ConeResult : List (List ℚ)) : List PipelineEvent :=
  let Value := npMedian (ConeResult.getD 3 [])
  [.write (fileName RealResultsDirectory i cfg.surveyname ".uncalibratedresult".toList)] ++
  (if cfg.WeightParameter1 = .kappa then
    [.calibrate ⟨CalibrationResultsDirectory, cfg.surveyname, Value, 1/100, false⟩]
  else if cfg.WeightParameter1 = .mu then
    [.calibrate ⟨CalibrationResultsDirectory, cfg.surveyname, Value, 1/100, true⟩]
  else []) ++
  [.write (fileName RealResultsDirectory i cfg.surveyname ".calibratedresult".toList)]

/-- The pipeline's event trace with `DoReconstruction=True` and
`CreateNewCalibration=True`: the calibration loop over the globbed
calibration cones (whose reconstruction results are `calResults`),
followed by the real-cone loop (results `realResults`).
`ncal`/`nreal` are the lengths of the two globbed cone lists. -/
def pipelineTrace (cfg : SurveyConfig)
    (CalibrationResultsDirectory RealResultsDirectory : PyStr)
    (calResults realResults : Nat → List (List ℚ)) (ncal nreal : Nat) :
    List PipelineEvent :=
  (List.range ncal).flatMap
    (fun i => calibConeStep cfg CalibrationResultsDirectory i (calResults i)) ++
  (List.range nreal).flatMap
    (fun i => realConeStep cfg CalibrationResultsDirectory RealResultsDirectory i (realResults i))

/-- The paths written (in order) along a trace. -/
def writtenPaths (t : List PipelineEvent) : List PyStr :=
  t.filterMap (fun e => match e with | .write p => some p | .calibrate _ => none)

/-- The `CalibrateResult` calls made (in order) along a trace. -/
def calibrateCalls (t : List PipelineEvent) : List CalibrateCall :=
  t.filterMap (fun e => match e with | .write _ => none | .calibrate c => some c)

/-! ## Spec-modelled core components missing from the repository -/

/-- Error cases of the reconstructor, per the spec's failure conditions. -/
inductive ReconError
  | configurationError
  | emptyCatalog
  | massOutOfTable
  deriving DecidableEq

/-- Modelled from the spec: the per-cone reconstructor
`Reconstruct(Cone, zl, zs, Grid, SHMR_H2S, SHMR_S2H, Nrealisation, truncationscale, surveyparams)`
called at Reconstruct.py lines 169 and 199 is not defined anywhere in the
repository (the name resolves to the CLI helper, which takes one
argument).  Following spec §4.1: it signals a configuration error if
`nRealisations <= 0`, a data error if the lightcone catalog is empty or if
the stellar-mass→halo-mass lookup is undefined for a required stellar
mass, and otherwise returns a `ConeResult` of four tracked columns, each
with one (finite, here: rational) entry per realization.  The
stellar-mass→halo-mass table is `massRelation` (partial: `none` =
out-of-table) and the per-realization stochastic estimates are supplied by
the oracle `draw` (column index → realization index → value). -/
def reconstructCone (massRelation : ℚ → Option ℚ) (draw : Nat → Nat → ℚ)
    (catalog : List ℚ) (nRealisations : ℤ) : Except ReconError (List (List ℚ)) :=
  if nRealisations ≤ 0 then .error .configurationError
  else if catalog = [] then .error .emptyCatalog
  else if catalog.any (fun m => (massRelation m).isNone) then .error .massOutOfTable
  else .ok ((List.range 4).map (fun q =>
    (List.range nRealisations.toNat).map (fun k => draw q k)))

/-- One entry of the empirical calibration distribution. -/
structure CalibTriple where
  kappaExt : ℚ
  muExt : ℚ
  weight : ℚ
  deriving DecidableEq

/-- Error case of the calibration-set builder. -/
inductive CalibBuildError
  | emptyCalibrationSet
  deriving DecidableEq

/-- Modelled from the spec: `MakeReconstructionCalibration`
(Reconstruct.py line 181) is not defined anywhere in the repository.
Following spec §4.2: it aggregates, over all calibration lightcones, the
triples `(kappa_ext, mu_ext, WEIGHT)` — `WEIGHT` drawn from the cone's
`ConeResult` weight column — and signals an error if the calibration
lightcone set is empty.  Input: each cone's `ConeResult` paired with its
ground-truth `(kappa_ext, mu_ext)`. -/
def buildCalibration (cones : List ((List (List ℚ)) × (ℚ × ℚ))) :
    Except CalibBuildError (List CalibTriple) :=
  if cones = [] then .error .emptyCalibrationSet
  else .ok (cones.flatMap (fun p => (p.1.getD 3 []).map (fun w => ⟨p.2.1, p.2.2, w⟩)))

/-! ## Soundness of option parsing at the call site `getopt(argv, "h", ["help"])` -/

theorem short_has_arg_h (c : Char) (b : Bool)
    (h : short_has_arg c "h".toList = .ok b) : c = 'h' ∧ b = false := by
  have he : ("h".toList : PyStr) = ['h'] := rfl
  rw [he] at h
  by_cases hc : c = 'h'
  · subst hc
    simp [short_has_arg] at h
    exact ⟨rfl, h⟩
  · simp [short_has_arg, hc] at h

theorem concat_eq_ne_help (op : PyStr) : op ++ ['='] ≠ "help".toList := by
  intro he
  have := congrArg List.getLast? he
  rw [List.getLast?_concat] at this
  simp at this

theorem long_has_args_help (op : PyStr) (r : Bool × PyStr)
    (h : long_has_args op ["help".toList] = .ok r) : r = (false, "help".toList) := by
  by_cases hs : pyStartsWith "help".toList op = true
  · simp only [long_has_args, List.filter_cons, List.filter_nil, hs, if_true] at h
    by_cases hop : op = "help".toList
    · subst hop
      simp at h
      exact h.symm
    · have hmem : op ∉ (["help".toList] : List PyStr) := by simpa using hop
      have hmem2 : op ++ ['='] ∉ (["help".toList] : List PyStr) := by
        simpa using concat_eq_ne_help op
      simp only [if_neg (by simp : ¬ (["help".toList] : List PyStr) = []),
        if_neg hmem, if_neg hmem2] at h
      have hlast : (["help".toList] : List PyStr).headD [] = "help".toList := rfl
      simp only [List.length_singleton, gt_iff_lt, lt_irrefl, if_false, hlast] at h
      have : ("help".toList : PyStr).getLast? = some 'p' := rfl
      rw [this] at h
      simp at h
      exact h.symm
  · simp only [long_has_args, List.filter_cons, List.filter_nil, hs] at h
    simp at h

theorem do_longs_core_help (optfull : PyStr) (o : LongOut)
    (h : do_longs_core optfull ["help".toList] = .ok o) : o = .noArg "help".toList := by
  simp only [do_longs_core] at h
  cases hla : long_has_args (splitFirstEq optfull).1 ["help".toList] with
  | error e => rw [hla] at h; cases h
  | ok r =>
    rw [hla] at h
    obtain rfl := long_has_args_help _ _ hla
    cases hsp : (splitFirstEq optfull).2 with
    | none => rw [hsp] at h; simp at h; exact h.symm
    | some v => rw [hsp] at h; simp at h

theorem do_shorts_core_h (ostr : PyStr)
    (os : List (PyStr × PyStr)) (need : Option Char)
    (h : do_shorts_core ostr "h".toList = .ok (os, need)) :
    (∀ p ∈ os, p.1 = "-h".toList) ∧ need = none := by
  induction ostr generalizing os need with
  | nil =>
    simp [do_shorts_core] at h
    obtain ⟨rfl, rfl⟩ := h
    simp
  | cons c rest ih =>
    rw [do_shorts_core] at h
    cases hsa : short_has_arg c "h".toList with
    | error e => rw [hsa] at h; cases h
    | ok hasArg =>
      rw [hsa] at h
      obtain ⟨rfl, rfl⟩ := short_has_arg_h c hasArg hsa
      simp only [if_false, Bool.false_eq_true] at h
      cases hrec : do_shorts_core rest "h".toList with
      | error e => rw [hrec] at h; cases h
      | ok pr =>
        obtain ⟨os1, need1⟩ := pr
        rw [hrec] at h
        obtain ⟨hos1, hneed1⟩ := ih os1 need1 hrec
        simp only [Except.ok.injEq, Prod.mk.injEq] at h
        obtain ⟨h1, h2⟩ := h
        subst h1
        subst h2
        refine ⟨?_, hneed1⟩
        intro p hp
        rcases List.mem_cons.mp hp with rfl | hp2
        · rfl
        · exact hos1 p hp2

/-- At the call site `getopt(argv, "h", ["help"])` every loop iteration
either halts, or continues with no pending option and with every parsed
option equal to `-h` or `--help`. -/
theorem getoptStep_h_help (opts : List (PyStr × PyStr)) (a : PyStr) (rest : List PyStr)
    (hP : ∀ p ∈ opts, p.1 = "-h".toList ∨ p.1 = "--help".toList) :
    (∃ e, getoptStep opts "h".toList ["help".toList] a rest = .halt (.error e)) ∨
    (∃ res, getoptStep opts "h".toList ["help".toList] a rest = .halt (.ok res) ∧
      ∀ p ∈ res.1, p.1 = "-h".toList ∨ p.1 = "--help".toList) ∨
    (∃ opts2, getoptStep opts "h".toList ["help".toList] a rest = .next opts2 none ∧
      ∀ p ∈ opts2, p.1 = "-h".toList ∨ p.1 = "--help".toList) := by
  unfold getoptStep
  by_cases h1 : ¬ (pyStartsWith a ['-'] = true) ∨ a = ['-']
  · rw [if_pos h1]
    exact .inr (.inl ⟨(opts, a :: rest), rfl, hP⟩)
  · rw [if_neg h1]
    by_cases h2 : a = ['-', '-']
    · rw [if_pos h2]
      exact .inr (.inl ⟨(opts, rest), rfl, hP⟩)
    · rw [if_neg h2]
      by_cases h3 : a.take 2 = ['-', '-']
      · rw [if_pos h3]
        cases hdl : do_longs_core (a.drop 2) ["help".toList] with
        | error e => exact .inl ⟨e, rfl⟩
        | ok lo =>
          obtain rfl := do_longs_core_help _ _ hdl
          refine .inr (.inr ⟨opts ++ [('-' :: '-' :: "help".toList, [])], rfl, ?_⟩)
          intro p hp
          rcases List.mem_append.mp hp with hp1 | hp2
          · exact hP p hp1
          · right
            simp only [List.mem_singleton] at hp2
            rw [hp2]
            rfl
      · rw [if_neg h3]
        cases hds : do_shorts_core (a.drop 1) "h".toList with
        | error e => exact .inl ⟨e, rfl⟩
        | ok pr =>
          obtain ⟨os, need⟩ := pr
          obtain ⟨hos, rfl⟩ := do_shorts_core_h _ _ _ hds
          refine .inr (.inr ⟨opts ++ os, rfl, ?_⟩)
          intro p hp
          rcases List.mem_append.mp hp with hp1 | hp2
          · exact hP p hp1
          · left
            exact hos p hp2

/-- Every option parsed by `getopt(..., "h", ["help"])` is `-h` or
`--help` (an invariant of the parsing loop). -/
theorem getoptLoop_opts_h_help (args : List PyStr) :
    ∀ (opts : List (PyStr × PyStr)) (res : List (PyStr × PyStr) × List PyStr),
      getoptLoop opts "h".toList ["help".toList] none args = .ok res →
      (∀ p ∈ opts, p.1 = "-h".toList ∨ p.1 = "--help".toList) →
      ∀ p ∈ res.1, p.1 = "-h".toList ∨ p.1 = "--help".toList := by
  induction args with
  | nil =>
    intro opts res h hP
    rw [getoptLoop] at h
    simp only [Except.ok.injEq] at h
    rw [← h]
    exact hP
  | cons a rest ih =>
    intro opts res h hP
    rw [getoptLoop] at h
    rcases getoptStep_h_help opts a rest hP with ⟨e, hstep⟩ | ⟨r, hstep, hr⟩ | ⟨opts2, hstep, h2⟩
    · rw [hstep] at h
      cases h
    · rw [hstep] at h
      simp only [Except.ok.injEq] at h
      rw [← h]
      exact hr
    · rw [hstep] at h
      exact ih opts2 res h h2

end Pangloss

namespace Pangloss

/-! ## Distinctness of the persisted file names -/

theorem append_ne_of_rev_getD (A B E1 E2 : List Char) (n : Nat)
    (h1 : n < E1.length) (h2 : n < E2.length)
    (hne : E1.reverse.getD n ' ' ≠ E2.reverse.getD n ' ') :
    A ++ E1 ≠ B ++ E2 := by
  intro h
  apply hne
  have h' := congrArg List.reverse h
  rw [List.reverse_append, List.reverse_append] at h'
  have hg := congrArg (fun l => l.getD n ' ') h'
  simp only at hg
  rwa [List.getD_append _ _ _ _ (by simpa using h1),
    List.getD_append _ _ _ _ (by simpa using h2)] at hg

theorem fileName_eq_append (dir : PyStr) (i : Nat) (surveyname ext : PyStr) :
    fileName dir i surveyname ext =
      (dir ++ "/cone".toList ++ pyIntRepr i ++ "_".toList ++ surveyname) ++ ext := by
  simp [fileName, List.append_assoc]

theorem fileName_result_ne_uncal (d1 d2 s : PyStr) (i1 i2 : Nat) :
    fileName d1 i1 s ".result".toList ≠ fileName d2 i2 s ".uncalibratedresult".toList := by
  rw [fileName_eq_append, fileName_eq_append]
  exact append_ne_of_rev_getD _ _ _ _ 6 (by decide) (by decide) (by decide)

theorem fileName_result_ne_cal (d1 d2 s : PyStr) (i1 i2 : Nat) :
    fileName d1 i1 s ".result".toList ≠ fileName d2 i2 s ".calibratedresult".toList := by
  rw [fileName_eq_append, fileName_eq_append]
  exact append_ne_of_rev_getD _ _ _ _ 6 (by decide) (by decide) (by decide)

theorem fileName_uncal_ne_cal (d1 d2 s : PyStr) (i1 i2 : Nat) :
    fileName d1 i1 s ".uncalibratedresult".toList
      ≠ fileName d2 i2 s ".calibratedresult".toList := by
  rw [fileName_eq_append, fileName_eq_append]
  exact append_ne_of_rev_getD _ _ _ _ 16 (by decide) (by decide) (by decide)

theorem fileName_inj_index (d s e : PyStr) (i j : Nat)
    (h : fileName d i s e = fileName d j s e) : i = j := by
  unfold fileName at h
  have h1 := List.append_cancel_right h
  have h2 := List.append_cancel_right h1
  have h3 := List.append_cancel_right h2
  exact pyIntRepr_injective (List.append_cancel_left h3)

/-! ## Counting writes along the pipeline trace -/

theorem countOccs_flatMap (x : PyStr) (g : Nat → List PyStr) (l : List Nat) :
    countOccs x (l.flatMap g) = (l.map (fun i => countOccs x (g i))).sum := by
  induction l with
  | nil => rfl
  | cons a l ih => simp [List.flatMap_cons, countOccs_append, ih]

theorem sum_indicator_range (i n : Nat) (v : Nat → Nat)
    (hv : ∀ j, v j = if j = i then 1 else 0) :
    ((List.range n).map v).sum = if i < n then 1 else 0 := by
  induction n with
  | zero => simp
  | succ n ih =>
    rw [List.range_succ, List.map_append, List.sum_append, ih]
    simp only [List.map_cons, List.map_nil, List.sum_cons, List.sum_nil, hv]
    split_ifs <;> omega

theorem writtenPaths_append (t1 t2 : List PipelineEvent) :
    writtenPaths (t1 ++ t2) = writtenPaths t1 ++ writtenPaths t2 := by
  simp [writtenPaths, List.filterMap_append]

theorem writtenPaths_flatMap (g : Nat → List PipelineEvent) (l : List Nat) :
    writtenPaths (l.flatMap g) = l.flatMap (fun i => writtenPaths (g i)) := by
  induction l with
  | nil => rfl
  | cons a l ih => simp [List.flatMap_cons, writtenPaths_append, ih]

theorem writtenPaths_calibConeStep (cfg : SurveyConfig) (cdir : PyStr) (i : Nat)
    (cr : List (List ℚ)) :
    writtenPaths (calibConeStep cfg cdir i cr)
      = [fileName cdir i cfg.surveyname ".result".toList] := rfl

theorem writtenPaths_realConeStep (cfg : SurveyConfig) (cdir rdir : PyStr) (i : Nat)
    (cr : List (List ℚ)) :
    writtenPaths (realConeStep cfg cdir rdir i cr)
      = [fileName rdir i cfg.surveyname ".uncalibratedresult".toList,
         fileName rdir i cfg.surveyname ".calibratedresult".toList] := by
  rcases cfg with ⟨sv, wp, w⟩
  cases wp <;> simp [writtenPaths, realConeStep, List.filterMap_append]

/-- The pipeline's written paths: calibration-phase names followed by the
interleaved real-phase names. -/
theorem writtenPaths_pipelineTrace (cfg : SurveyConfig) (cdir rdir : PyStr)
    (calResults realResults : Nat → List (List ℚ)) (ncal nreal : Nat) :
    writtenPaths (pipelineTrace cfg cdir rdir calResults realResults ncal nreal)
      = (List.range ncal).flatMap
          (fun j => [fileName cdir j cfg.surveyname ".result".toList]) ++
        (List.range nreal).flatMap
          (fun j => [fileName rdir j cfg.surveyname ".uncalibratedresult".toList,
            fileName rdir j cfg.surveyname ".calibratedresult".toList]) := by
  rw [pipelineTrace, writtenPaths_append, writtenPaths_flatMap, writtenPaths_flatMap]
  simp only [writtenPaths_calibConeStep, writtenPaths_realConeStep]

theorem countOccs_singleton (x a : PyStr) : countOccs x [a] = if a = x then 1 else 0 := by
  simp only [countOccs_cons, countOccs_nil]
  omega

theorem countOccs_pair (x a b : PyStr) :
    countOccs x [a, b] = (if a = x then 1 else 0) + (if b = x then 1 else 0) := by
  simp only [countOccs_cons, countOccs_nil]
  omega

/-! ## Claim theorems -/

/-- C7: the pipeline persists exactly one result record per calibration
lightcone under the name `cone<i>_<surveyname>.result`, and per real
lightcone first `cone<i>_<surveyname>.uncalibratedresult` and then
`cone<i>_<surveyname>.calibratedresult`, in that order. -/
theorem pipeline_write_discipline (cfg : SurveyConfig) (cdir rdir : PyStr)
    (calResults realResults : Nat → List (List ℚ)) (ncal nreal : Nat) (i : Nat) :
    (i < ncal →
      countOccs (fileName cdir i cfg.surveyname ".result".toList)
        (writtenPaths (pipelineTrace cfg cdir rdir calResults realResults ncal nreal))
        = 1) ∧
    (i < nreal →
      countOccs (fileName rdir i cfg.surveyname ".uncalibratedresult".toList)
        (writtenPaths (pipelineTrace cfg cdir rdir calResults realResults ncal nreal))
        = 1 ∧
      countOccs (fileName rdir i cfg.surveyname ".calibratedresult".toList)
        (writtenPaths (pipelineTrace cfg cdir rdir calResults realResults ncal nreal))
        = 1 ∧
      ∃ l1 l2,
        writtenPaths (pipelineTrace cfg cdir rdir calResults realResults ncal nreal)
          = l1 ++ fileName rdir i cfg.surveyname ".uncalibratedresult".toList ::
              fileName rdir i cfg.surveyname ".calibratedresult".toList :: l2) := by
  rw [writtenPaths_pipelineTrace]
  constructor
  · intro hi
    rw [countOccs_append, countOccs_flatMap, countOccs_flatMap]
    have hcal : ∀ j, countOccs (fileName cdir i cfg.surveyname ".result".toList)
        [fileName cdir j cfg.surveyname ".result".toList] = if j = i then 1 else 0 := by
      intro j
      rw [countOccs_singleton]
      by_cases hj : j = i
      · subst hj; simp
      · rw [if_neg hj, if_neg (fun he => hj (fileName_inj_index _ _ _ _ _ he))]
    have hreal : ∀ j, countOccs (fileName cdir i cfg.surveyname ".result".toList)
        [fileName rdir j cfg.surveyname ".uncalibratedresult".toList,
         fileName rdir j cfg.surveyname ".calibratedresult".toList] = 0 := by
      intro j
      rw [countOccs_pair,
        if_neg (Ne.symm (fileName_result_ne_uncal cdir rdir cfg.surveyname i j)),
        if_neg (Ne.symm (fileName_result_ne_cal cdir rdir cfg.surveyname i j))]
    rw [sum_indicator_range i ncal _ hcal, if_pos hi]
    have hz : ((List.range nreal).map (fun j =>
        countOccs (fileName cdir i cfg.surveyname ".result".toList)
          [fileName rdir j cfg.surveyname ".uncalibratedresult".toList,
           fileName rdir j cfg.surveyname ".calibratedresult".toList])).sum = 0 := by
      apply List.sum_eq_zero
      intro x hx
      obtain ⟨j, hj, rfl⟩ := List.mem_map.mp hx
      exact hreal j
    rw [hz]
  · intro hi
    refine ⟨?_, ?_, ?_⟩
    · rw [countOccs_append, countOccs_flatMap, countOccs_flatMap]
      have hcal0 : ((List.range ncal).map (fun j =>
          countOccs (fileName rdir i cfg.surveyname ".uncalibratedresult".toList)
            [fileName cdir j cfg.surveyname ".result".toList])).sum = 0 := by
        apply List.sum_eq_zero
        intro x hx
        obtain ⟨j, hj, rfl⟩ := List.mem_map.mp hx
        rw [countOccs_singleton,
          if_neg (fileName_result_ne_uncal cdir rdir cfg.surveyname j i)]
      have hreal : ∀ j, countOccs (fileName rdir i cfg.surveyname ".uncalibratedresult".toList)
          [fileName rdir j cfg.surveyname ".uncalibratedresult".toList,
           fileName rdir j cfg.surveyname ".calibratedresult".toList]
            = if j = i then 1 else 0 := by
        intro j
        rw [countOccs_pair,
          if_neg (Ne.symm (fileName_uncal_ne_cal rdir rdir cfg.surveyname i j))]
        by_cases hj : j = i
        · subst hj; simp
        · rw [if_neg hj, if_neg (fun he => hj (fileName_inj_index _ _ _ _ _ he))]
      rw [hcal0, sum_indicator_range i nreal _ hreal, if_pos hi]
    · rw [countOccs_append, countOccs_flatMap, countOccs_flatMap]
      have hcal0 : ((List.range ncal).map (fun j =>
          countOccs (fileName rdir i cfg.surveyname ".calibratedresult".toList)
            [fileName cdir j cfg.surveyname ".result".toList])).sum = 0 := by
        apply List.sum_eq_zero
        intro x hx
        obtain ⟨j, hj, rfl⟩ := List.mem_map.mp hx
        rw [countOccs_singleton,
          if_neg (fileName_result_ne_cal cdir rdir cfg.surveyname j i)]
      have hreal : ∀ j, countOccs (fileName rdir i cfg.surveyname ".calibratedresult".toList)
          [fileName rdir j cfg.surveyname ".uncalibratedresult".toList,
           fileName rdir j cfg.surveyname ".calibratedresult".toList]
            = if j = i then 1 else 0 := by
        intro j
        rw [countOccs_pair,
          if_neg (fileName_uncal_ne_cal rdir rdir cfg.surveyname j i)]
        by_cases hj : j = i
        · subst hj; simp
        · rw [if_neg hj, if_neg (fun he => hj (fileName_inj_index _ _ _ _ _ he))]
      rw [hcal0, sum_indicator_range i nreal _ hreal, if_pos hi]
    · have h1 : i + (nreal - i) = nreal := by omega
      have h2 : (nreal - i - 1) + 1 = nreal - i := by omega
      have hsplit : List.range nreal
          = List.range i ++ i :: (List.range (nreal - i - 1)).map (fun k => i + (k + 1)) := by
        rw [← h1, List.range_add, ← h2, List.range_succ_eq_map]
        simp [List.map_map, Function.comp, Nat.succ_eq_add_one]
      refine ⟨(List.range ncal).flatMap
          (fun j => [fileName cdir j cfg.surveyname ".result".toList]) ++
          (List.range i).flatMap
            (fun j => [fileName rdir j cfg.surveyname ".uncalibratedresult".toList,
              fileName rdir j cfg.surveyname ".calibratedresult".toList]),
          ((List.range (nreal - i - 1)).map (fun k => i + (k + 1))).flatMap
            (fun j => [fileName rdir j cfg.surveyname ".uncalibratedresult".toList,
              fileName rdir j cfg.surveyname ".calibratedresult".toList]), ?_⟩
      rw [hsplit, List.flatMap_append, List.flatMap_cons]
      simp [List.append_assoc]

theorem pipeline_write_discipline_witness :
    countOccs (fileName "cd".toList 0 "s".toList ".result".toList)
      (writtenPaths (pipelineTrace (SurveyConfig.mk "s".toList WeightParam.kappa (1/100))
        "cd".toList "rd".toList (fun _ => [[], [], [], []]) (fun _ => [[], [], [], []]) 1 1))
      = 1 ∧
    countOccs (fileName "rd".toList 0 "s".toList ".uncalibratedresult".toList)
      (writtenPaths (pipelineTrace (SurveyConfig.mk "s".toList WeightParam.kappa (1/100))
        "cd".toList "rd".toList (fun _ => [[], [], [], []]) (fun _ => [[], [], [], []]) 1 1))
      = 1 :=
  ⟨(pipeline_write_discipline (SurveyConfig.mk "s".toList WeightParam.kappa (1/100))
      "cd".toList "rd".toList (fun _ => [[], [], [], []]) (fun _ => [[], [], [], []])
      1 1 0).1 (by norm_num),
   ((pipeline_write_discipline (SurveyConfig.mk "s".toList WeightParam.kappa (1/100))
      "cd".toList "rd".toList (fun _ => [[], [], [], []]) (fun _ => [[], [], [], []])
      1 1 0).2 (by norm_num)).1⟩

/-- C10: every option parsed by `getopt` with option string `"h"` and long
option list `["help"]` is `-h` or `--help`, so the
`assert False, "unhandled option"` branch of the option loop is
unreachable: `Reconstruct` never ends in the assertion failure. -/
theorem getopt_h_help_options_sound (argv : List PyStr)
    (opts : List (PyStr × PyStr)) (rest : List PyStr)
    (h : getopt argv "h".toList ["help".toList] = .ok (opts, rest)) :
    (∀ p ∈ opts, p.1 = "-h".toList ∨ p.1 = "--help".toList) ∧
    Reconstruct argv ≠ .assertionFailure := by
  have hopts : ∀ p ∈ opts, p.1 = "-h".toList ∨ p.1 = "--help".toList :=
    getoptLoop_opts_h_help argv [] (opts, rest) h (by simp)
  refine ⟨hopts, ?_⟩
  unfold Reconstruct
  rw [h]
  cases opts with
  | nil =>
    simp only [optionLoop]
    intro hc
    rcases rest with _ | ⟨c, _ | ⟨d, t⟩⟩ <;> simp_all
  | cons p ps =>
    obtain ⟨o, av⟩ := p
    have hfirst := hopts (o, av) (by simp)
    simp only [optionLoop, hfirst, if_pos]
    intro hc
    cases hc

theorem getopt_h_help_options_sound_witness :
    Reconstruct ["--help".toList, "x".toList] ≠ .assertionFailure :=
  (getopt_h_help_options_sound ["--help".toList, "x".toList]
    [("--help".toList, [])] ["x".toList] rfl).2

/-- C8: for every argument vector, a parsed `-h`/`--help` flag makes the
CLI print the usage text and return (the process then exits with status
0) without processing further, while an unrecognized flag is caught as a
`GetoptError`: its message and the usage text are printed and the pipeline
does not proceed. -/
theorem cli_help_and_unrecognized_flag (argv : List PyStr)
    (opts : List (PyStr × PyStr)) (rest : List PyStr) (e : PyStr) :
    (getopt argv "h".toList ["help".toList] = .ok (opts, rest) → opts ≠ [] →
      Reconstruct argv = .help ∧ exitStatus .help = 0 ∧ usagePrinted .help = true) ∧
    (getopt argv "h".toList ["help".toList] = .error e →
      Reconstruct argv = .errorReport e ∧ usagePrinted (.errorReport e) = true ∧
      ∀ cf, Reconstruct argv ≠ .proceed cf) := by
  constructor
  · intro h hne
    refine ⟨?_, rfl, rfl⟩
    have hopts := getoptLoop_opts_h_help argv [] (opts, rest) h (by simp)
    unfold Reconstruct
    rw [h]
    cases opts with
    | nil => exact absurd rfl hne
    | cons p ps =>
      obtain ⟨o, av⟩ := p
      have hfirst := hopts (o, av) (by simp)
      simp only [optionLoop, hfirst, if_pos]
  · intro h
    have hr : Reconstruct argv = .errorReport e := by
      unfold Reconstruct
      rw [h]
    refine ⟨hr, rfl, ?_⟩
    intro cf hc
    rw [hr] at hc
    cases hc

theorem cli_help_and_unrecognized_flag_witness :
    Reconstruct ["-h".toList] = .help ∧
    Reconstruct ["-x".toList] = .errorReport "option -x not recognized".toList :=
  ⟨((cli_help_and_unrecognized_flag ["-h".toList] [("-h".toList, [])] [] []).1
      rfl (by simp)).1,
   ((cli_help_and_unrecognized_flag ["-x".toList] [] []
      "option -x not recognized".toList).2 rfl).1⟩

/-- C9: for every `ForegroundCatalog` and every pair of values of the
`z_cutoff` argument, `findGalaxies` and `returnGalaxies` produce identical
outputs when all other arguments are equal — the `z_cutoff` parameter has
no effect, because the redshift column `z_obs` is filtered against the
`mag_cutoff` bounds instead of the `z_cutoff` bounds. -/
theorem findGalaxies_returnGalaxies_z_cutoff_irrelevant
    (α : Type) [LinearOrderedField α] (cat : ForegroundCatalog α)
    (deg2rad rad2deg : α → α) (mag_cutoff mass_cutoff z1 z2 : α × α)
    (ra_cutoff dec_cutoff : Option (α × α)) :
    cat.findGalaxies deg2rad rad2deg mag_cutoff mass_cutoff z1 ra_cutoff dec_cutoff =
      cat.findGalaxies deg2rad rad2deg mag_cutoff mass_cutoff z2 ra_cutoff dec_cutoff ∧
    cat.returnGalaxies deg2rad mag_cutoff mass_cutoff z1 ra_cutoff dec_cutoff =
      cat.returnGalaxies deg2rad mag_cutoff mass_cutoff z2 ra_cutoff dec_cutoff :=
  ⟨rfl, rfl⟩

/-- C1: for every real lightcone processed in the calibration step, the
observed weight statistic passed to `CalibrateResult` equals the
`numpy.median` of column index 3 of that lightcone's `ConeResult`. -/
theorem calibrate_value_is_median_of_weight_column
    (cfg : SurveyConfig) (cdir rdir : PyStr) (i : Nat)
    (ConeResult : List (List ℚ)) (h : 3 < ConeResult.length) :
    (calibrateCalls (realConeStep cfg cdir rdir i ConeResult)).map CalibrateCall.value
      = [npMedian (ConeResult.get ⟨3, h⟩)] := by
  rcases cfg with ⟨sv, wp, w⟩
  cases wp <;>
    simp [calibrateCalls, realConeStep, List.filterMap_append,
      List.getElem?_eq_getElem h]

theorem calibrate_value_is_median_of_weight_column_witness :
    (calibrateCalls (realConeStep ⟨"s".toList, .kappa, 1/100⟩ "c".toList "r".toList 0
        [[], [], [], [3, 1, 2]])).map CalibrateCall.value = [2] := by
  have h : 3 < ([[], [], [], [3, 1, 2]] : List (List ℚ)).length := by norm_num
  rw [calibrate_value_is_median_of_weight_column ⟨"s".toList, .kappa, 1/100⟩
    "c".toList "r".toList 0 [[], [], [], [3, 1, 2]] h]
  norm_num [npMedian, List.insertionSort, List.orderedInsert]

/-- C2 (amended): the Gaussian tolerance half-width passed to
`CalibrateResult` is the constant `0.01` from the source line, for every
survey configuration — it is not taken from the configured
`calibrationWidth`. -/
theorem calibrate_width_is_constant
    (cfg : SurveyConfig) (cdir rdir : PyStr) (i : Nat) (ConeResult : List (List ℚ)) :
    (calibrateCalls (realConeStep cfg cdir rdir i ConeResult)).map CalibrateCall.width
      = [1/100] := by
  rcases cfg with ⟨sv, wp, w⟩
  cases wp <;> simp [calibrateCalls, realConeStep, List.filterMap_append]

/-- C2 (counterexample): with `calibrationWidth = 0.02` configured, the
width actually passed to `CalibrateResult` (`0.01`) differs from it, so
the width passed does not equal the configured `calibrationWidth`. -/
theorem calibrate_width_ignores_calibrationWidth :
    ¬ ((calibrateCalls (realConeStep (SurveyConfig.mk "s".toList WeightParam.kappa (1/50))
          "c".toList "r".toList 0 [[], [], [], []])).map CalibrateCall.width
        = [(SurveyConfig.mk "s".toList WeightParam.kappa (1/50)).calibrationWidth]) := by
  simp [calibrateCalls, realConeStep, List.filterMap_append]

/-- C3: exactly one of the two calibration branches runs, determined by
`WeightParameter1`: `kappa` gives `magnification=False`, `mu` gives
`magnification=True`, and the two cases are mutually exclusive. -/
theorem calibrate_branch_by_weight_parameter
    (cfg : SurveyConfig) (cdir rdir : PyStr) (i : Nat) (ConeResult : List (List ℚ)) :
    (cfg.WeightParameter1 = .kappa →
      (calibrateCalls (realConeStep cfg cdir rdir i ConeResult)).map
        CalibrateCall.magnification = [false]) ∧
    (cfg.WeightParameter1 = .mu →
      (calibrateCalls (realConeStep cfg cdir rdir i ConeResult)).map
        CalibrateCall.magnification = [true]) ∧
    Xor' (cfg.WeightParameter1 = .kappa) (cfg.WeightParameter1 = .mu) ∧
    (calibrateCalls (realConeStep cfg cdir rdir i ConeResult)).length = 1 := by
  rcases cfg with ⟨sv, wp, w⟩
  cases wp <;>
    simp [calibrateCalls, realConeStep, List.filterMap_append, Xor']

theorem calibrate_branch_by_weight_parameter_witness :
    (calibrateCalls (realConeStep (SurveyConfig.mk "s".toList WeightParam.kappa (1/100))
        "c".toList "r".toList 0 [[], [], [], []])).map CalibrateCall.magnification
      = [false] ∧
    (calibrateCalls (realConeStep (SurveyConfig.mk "s".toList WeightParam.mu (1/100))
        "c".toList "r".toList 0 [[], [], [], []])).map CalibrateCall.magnification
      = [true] :=
  ⟨(calibrate_branch_by_weight_parameter (SurveyConfig.mk "s".toList WeightParam.kappa (1/100))
      "c".toList "r".toList 0 [[], [], [], []]).1 rfl,
   (calibrate_branch_by_weight_parameter (SurveyConfig.mk "s".toList WeightParam.mu (1/100))
      "c".toList "r".toList 0 [[], [], [], []]).2.1 rfl⟩

/-- C4: for every `nRealisations > 0` and every valid lightcone (non-empty
catalog, mass relation defined on it), the reconstructor returns a
`ConeResult` with exactly `nRealisations` entries per tracked quantity
(entries are exact rationals, hence finite).  The reconstructor is
modelled from the spec because its code is absent from the repository. -/
theorem reconstructCone_row_count
    (massRelation : ℚ → Option ℚ) (draw : Nat → Nat → ℚ)
    (catalog : List ℚ) (nRealisations : ℤ)
    (hn : 0 < nRealisations) (hc : catalog ≠ [])
    (hm : ∀ m ∈ catalog, (massRelation m).isSome) :
    ∃ r, reconstructCone massRelation draw catalog nRealisations = .ok r ∧
      r.length = 4 ∧ ∀ col ∈ r, col.length = nRealisations.toNat := by
  have h1 : ¬ nRealisations ≤ 0 := by omega
  have h3 : catalog.any (fun m => (massRelation m).isNone) = false := by
    simp only [List.any_eq_false]
    intro m hmem
    simpa [Option.isNone_iff_eq_none] using
      Option.isSome_iff_ne_none.mp (hm m hmem)
  refine ⟨(List.range 4).map (fun q =>
    (List.range nRealisations.toNat).map (fun k => draw q k)), ?_, ?_, ?_⟩
  · simp [reconstructCone, h1, hc, h3]
  · simp
  · intro col hcol
    simp only [List.mem_map] at hcol
    obtain ⟨q, hq, rfl⟩ := hcol
    simp

theorem reconstructCone_row_count_witness :
    ∃ r, reconstructCone (fun _ => some 1) (fun _ _ => 0) [1] 2 = .ok r ∧
      r.length = 4 ∧ ∀ col ∈ r, col.length = (2 : ℤ).toNat :=
  reconstructCone_row_count (fun _ => some 1) (fun _ _ => 0) [1] 2
    (by norm_num) (by simp) (by simp)

/-- C5: invoking the reconstruction step with `nRealisations <= 0` signals
a configuration error rather than returning a result.  The reconstructor
is modelled from the spec because its code is absent from the repository. -/
theorem reconstructCone_nonpositive_realisations
    (massRelation : ℚ → Option ℚ) (draw : Nat → Nat → ℚ)
    (catalog : List ℚ) (nRealisations : ℤ) (hn : nRealisations ≤ 0) :
    reconstructCone massRelation draw catalog nRealisations
      = .error .configurationError := by
  simp [reconstructCone, hn]

theorem reconstructCone_nonpositive_realisations_witness :
    reconstructCone (fun _ => some 1) (fun _ _ => 0) [1] 0
      = .error .configurationError :=
  reconstructCone_nonpositive_realisations (fun _ => some 1) (fun _ _ => 0) [1] 0
    (by norm_num)

/-- C6: building the calibration distribution from an empty set of
calibration lightcones signals a data error and produces no distribution.
The builder is modelled from the spec because `MakeReconstructionCalibration`
is absent from the repository. -/
theorem buildCalibration_empty_errors :
    buildCalibration [] = .error .emptyCalibrationSet ∧
    ∀ d, buildCalibration [] ≠ .ok d :=
  ⟨rfl, by intro d h; simp [buildCalibration] at h⟩

end Pangloss
